import Mathlib

/-!
Verification development for the craigslist-scraper-cars pipeline.

The Lean definitions below are shallow embeddings of the repository's three
core pieces:
* `parseFields` embeds `parse_fields` from `cloud_function/extract.py`,
  including faithful models of the six regular expressions it uses
  (leftmost-match search with the exact backtracking behaviour of Python's
  `re` engine on these patterns) and of CPython's numeric conversions,
  among them an exact model of IEEE-754 double rounding for the
  `int(float(g) * 1000)` shorthand-mileage conversion.
* `mergeFold` / `jsonlRecordsForRun` / `materializePublish` embed the
  cross-run merge and atomic publish of
  `cloud_function/materialize-master/main.py` (`materialize_http`).
* `runOnce` embeds the date split and no-op logic of
  `cloud_function/train-dt/main.py` (`run_once`).

Machine-level caveats carried by the embedding: character classes `\d`,
`\s`, `\w` are modelled over their ASCII meaning, and external collaborators
(Google Cloud Storage, pandas date parsing, the fitted sklearn regressor) are
modelled as explicit state or as function parameters.
-/

set_option maxRecDepth 8000
set_option exponentiation.threshold 3000

namespace Scraper

/-! ### Character classes (ASCII reading of Python's `\d`, `\s`, `\w`, `[A-Z]`, …) -/

/-- Python `\s` over ASCII: space, tab, newline, carriage return, vertical tab, form feed. -/
def isPySpace (c : Char) : Bool :=
  c = ' ' ∨ c = '\t' ∨ c = '\n' ∨ c = '\r' ∨ c = '\x0b' ∨ c = '\x0c'

/-- Python `\d` over ASCII. -/
def isDig (c : Char) : Bool := c.isDigit

/-- The character class `[\d,]` / `[0-9,]` used by the price and tier-1 mileage patterns. -/
def isDigComma (c : Char) : Bool := c.isDigit ∨ c = ','

/-- Python `\w` over ASCII, used for `\b` word-boundary tests. -/
def isWordChar (c : Char) : Bool := c.isAlphanum ∨ c = '_'

/-- Boundary test `\b` to the right of a word character: the following text must not start with `\w`. -/
def boundaryOk : List Char → Bool
  | [] => true
  | c :: _ => ¬ isWordChar c

/-- Boundary test `\b` to the left of a word character: the preceding character (if any) must not be `\w`. -/
def boundaryPrev : Option Char → Bool
  | none => true
  | some c => ¬ isWordChar c

/-- Case-insensitive literal match (`re.I`): strip `pat` from the front of `cs`,
lowercasing text characters, returning the rest on success. -/
def stripCI : List Char → List Char → Option (List Char)
  | [], cs => some cs
  | _ :: _, [] => none
  | p :: ps, c :: cs => if c.toLower = p then stripCI ps cs else none

/-- Case-sensitive literal match: strip `pat` from the front of `cs`. -/
def stripCS : List Char → List Char → Option (List Char)
  | [], cs => some cs
  | _ :: _, [] => none
  | p :: ps, c :: cs => if c = p then stripCS ps cs else none

/-- Leftmost-match driver for `re.search`: try the position matcher `f` at every
suffix, left to right (finally at the empty suffix), returning the first success. -/
def searchAt {α : Type} (f : List Char → Option α) : List Char → Option α
  | [] => f []
  | c :: cs =>
    match f (c :: cs) with
    | some a => some a
    | none => searchAt f cs

/-- Leftmost-match driver that also tracks the previous character, for patterns
that begin with a word boundary `\b`. -/
def searchAtP {α : Type} (f : Option Char → List Char → Option α) :
    Option Char → List Char → Option α
  | prev, [] => f prev []
  | prev, c :: cs =>
    match f prev (c :: cs) with
    | some a => some a
    | none => searchAtP f (some c) cs

/-- Numeric value of a digit string, as Python's unbounded `int`. -/
def natOfDigits (ds : List Char) : Nat :=
  ds.foldl (fun n c => 10 * n + (c.toNat - 48)) 0

/-! ### The six regular expressions of `extract.py`

Each `match…At` function decides whether the pattern matches *at* the given
position and returns the capture group; the `search…` wrapper adds the
leftmost-match scan. Greedy quantifiers are resolved exactly as Python's
backtracking engine resolves them on these patterns (where adjacent character
classes are disjoint, greedy consumption without backtracking is equivalent;
tier 3 genuinely backtracks and is modelled with explicit candidate lists). -/

/-- Pattern `PRICE_RE = \$\s?([0-9,]+)` at one position. `\s?` is greedy: a single
whitespace is consumed when a nonempty `[0-9,]+` group follows it; otherwise
the engine backtracks to the empty option. -/
def matchPriceAt : List Char → Option (List Char)
  | '$' :: rest =>
    let r2 := match rest with
      | c :: r => if isPySpace c ∧ ¬ (r.takeWhile isDigComma).isEmpty then r else rest
      | [] => rest
    let g := r2.takeWhile isDigComma
    if g.isEmpty then none else some g
  | _ => none

/-- Leftmost match of `PRICE_RE`, returning the capture group. -/
def searchPrice (cs : List Char) : Option (List Char) := searchAt matchPriceAt cs

/-- Conversion `int(g.replace(",", ""))`: drop commas; `ValueError` (modelled as `none`)
when no digit remains. -/
def intOfDigitGroup (g : List Char) : Option Nat :=
  let ds := g.filter isDig
  if ds.isEmpty then none else some (natOfDigits ds)

/-- Field `price_usd` as computed by `parse_fields`: leftmost `PRICE_RE` match, then
integer conversion; a failed conversion is dropped silently (`except ValueError: pass`). -/
def priceOf (cs : List Char) : Option Nat :=
  (searchPrice cs).bind intOfDigitGroup

/-- Pattern `YEAR_RE = \b(19|20)\d{2}\b` at one position (given the previous character);
returns the full four-digit match `group(0)` as a number. -/
def matchYearAt (prev : Option Char) (cs : List Char) : Option Nat :=
  if boundaryPrev prev then
    match cs with
    | a :: b :: c :: d :: rest =>
      if ((a = '1' ∧ b = '9') ∨ (a = '2' ∧ b = '0')) ∧ isDig c ∧ isDig d ∧ boundaryOk rest then
        some (natOfDigits [a, b, c, d])
      else none
    | _ => none
  else none

/-- Field `year` as computed by `parse_fields`. -/
def yearOf (cs : List Char) : Option Nat := searchAtP matchYearAt none cs

/-- Pattern `MAKE_MODEL_RE = \b([A-Z][a-z]+)\s+([A-Z][A-Za-z0-9]+)` at one position. -/
def matchMakeModelAt (prev : Option Char) (cs : List Char) : Option (List Char × List Char) :=
  if boundaryPrev prev then
    match cs with
    | c :: rest =>
      if c.isUpper then
        let low := rest.takeWhile (fun ch => ch.isLower)
        if low.isEmpty then none else
        let r1 := rest.drop low.length
        let sp := r1.takeWhile isPySpace
        if sp.isEmpty then none else
        match r1.drop sp.length with
        | d :: r3 =>
          if d.isUpper then
            let tl := r3.takeWhile (fun ch => ch.isAlphanum)
            if tl.isEmpty then none else some (c :: low, d :: tl)
          else none
        | [] => none
      else none
    | [] => none
  else none

/-- Fields `make` and `model` as computed by `parse_fields`: both capture groups of the
leftmost `MAKE_MODEL_RE` match, or nothing. -/
def makeModelOf (cs : List Char) : Option (List Char × List Char) :=
  searchAtP matchMakeModelAt none cs

/-- The unit alternation `(?:mi|mile|miles)\b` (case-insensitive): the regex
engine tries the three literals in order, each followed by the word-boundary
test, so the alternation succeeds iff some literal is followed by a non-word
character (or the end of input). -/
def unitAlt (pat : String) (cs : List Char) : Bool :=
  match stripCI pat.toList cs with
  | some r => boundaryOk r
  | none => false

/-- The three unit alternatives, combined. -/
def unitMatch (cs : List Char) : Bool :=
  unitAlt "mi" cs || unitAlt "mile" cs || unitAlt "miles" cs

/-- Tier-1 mileage pattern `(?:mileage|odometer)\s*[:\-]?\s*([\d,]+)` (case-insensitive)
at one position, returning the capture group. -/
def matchTier1At (cs : List Char) : Option (List Char) :=
  let afterKw := match stripCI "mileage".toList cs with
    | some r => some r
    | none => stripCI "odometer".toList cs
  match afterKw with
  | none => none
  | some rest =>
    let r1 := rest.dropWhile isPySpace
    let r2 := match r1 with
      | c :: t => if c = ':' ∨ c = '-' then t else r1
      | [] => r1
    let r3 := r2.dropWhile isPySpace
    let g := r3.takeWhile isDigComma
    if g.isEmpty then none else some g

/-- Leftmost match of the tier-1 pattern. -/
def searchTier1 (cs : List Char) : Option (List Char) := searchAt matchTier1At cs

/-- Tier-2 shorthand pattern `(\d+(?:\.\d+)?)\s*k\s*(?:mi|mile|miles)\b`
(case-insensitive) at one position, returning the integer and fractional digit
parts of the capture group. -/
def matchTier2At (cs : List Char) : Option (List Char × List Char) :=
  let ip := cs.takeWhile isDig
  if ip.isEmpty then none else
  let r1 := cs.drop ip.length
  let fr : List Char × List Char := match r1 with
    | '.' :: t =>
      let f := t.takeWhile isDig
      if f.isEmpty then ([], r1) else (f, t.drop f.length)
    | _ => ([], r1)
  let r3 := fr.2.dropWhile isPySpace
  match r3 with
  | k :: r4 =>
    if k.toLower = 'k' then
      if unitMatch (r4.dropWhile isPySpace) then some (ip, fr.1) else none
    else none
  | [] => none

/-- Leftmost match of the tier-2 pattern. -/
def searchTier2 (cs : List Char) : Option (List Char × List Char) := searchAt matchTier2At cs

/-- One greedy step of `(?:[,\d]{3})`: consume exactly three `[,\d]` characters. -/
def take3DC : List Char → Option (List Char)
  | a :: b :: c :: r => if isDigComma a ∧ isDigComma b ∧ isDigComma c then some r else none
  | _ => none

/-- All suffixes reachable by `(?:[,\d]{3})*`, in order of 0, 1, 2, …
iterations; the greedy engine tries them from the last (most iterations) back. -/
def iterSuffixes : List Char → List (List Char)
  | a :: b :: c :: r =>
    if isDigComma a ∧ isDigComma b ∧ isDigComma c then (a :: b :: c :: r) :: iterSuffixes r
    else [a :: b :: c :: r]
  | cs => [cs]

/-- The tail `\s*(?:mi|mile|miles)\b` of the tier-3 pattern. -/
def tier3Tail (cs : List Char) : Bool := unitMatch (cs.dropWhile isPySpace)

/-- Tier-3 pattern `(\d{1,3}(?:[,\d]{3})*)\s*(?:mi|mile|miles)\b` (case-insensitive)
at one position, returning the capture group. The engine explores `\d{1,3}`
greedily (3, 2, 1 digits) and for each digit count explores `(?:[,\d]{3})*`
from most to fewest iterations. -/
def matchTier3At (cs : List Char) : Option (List Char) :=
  let dmax := min 3 (cs.takeWhile isDig).length
  if dmax = 0 then none else
  ((List.range dmax).map (fun i => dmax - i)).findSome? fun d =>
    ((iterSuffixes (cs.drop d)).reverse.findSome? fun suf =>
      if tier3Tail suf then some (cs.take (cs.length - suf.length)) else none)

/-- Leftmost match of the tier-3 pattern. -/
def searchTier3 (cs : List Char) : Option (List Char) := searchAt matchTier3At cs

/-! ### CPython numeric semantics for the tier-2 conversion

`int(float(m2.group(1)) * 1000)` evaluates in IEEE-754 binary64: the decimal
literal is rounded to the nearest double (ties to even), multiplied by the
exact double `1000.0` with another round-to-nearest, and truncated toward
zero. Overflowing literals yield `inf` (CPython returns `HUGE_VAL` without an
exception) and `int(inf)` raises `OverflowError`, which the surrounding
`except ValueError` does **not** catch. A finite double is represented here by
a mantissa/exponent pair valued `mant * 2 ^ ex`; `none` stands for `inf`. -/

/-- The only uncaught exception `parse_fields` can produce. -/
inductive PyErr where
  | overflow
  deriving DecidableEq, Repr

/-- Round `num / den` to the nearest integer, ties to even. -/
def rnHalfEven (num den : Nat) : Nat :=
  let q := num / den
  let r := num % den
  if den < 2 * r then q + 1
  else if 2 * r < den then q
  else if q % 2 = 0 then q else q + 1

/-- Fuel-driven binary logarithm (structurally recursive so that concrete
double roundings evaluate inside the kernel). -/
def log2fuel : Nat → Nat → Nat
  | 0, _ => 0
  | fuel + 1, n => if n ≤ 1 then 0 else log2fuel fuel (n / 2) + 1

/-- Value `⌊log₂ n⌋` (0 at 0), agreeing with `Nat.log2` on positive input. -/
def natLog2 (n : Nat) : Nat := log2fuel n n

/-- Value `⌊log₂ (num / den)⌋` for positive `num`, `den`. -/
def flog2 (num den : Nat) : Int :=
  let c : Int := (natLog2 num : Int) - (natLog2 den : Int)
  let ok : Bool :=
    if 0 ≤ c then den * 2 ^ c.toNat ≤ num else den ≤ num * 2 ^ (-c).toNat
  if ok then c else c - 1

/-- Round the positive rational `num / den` to the nearest IEEE-754 binary64
value (ties to even, subnormals and overflow-to-infinity included). `none` is
`inf`; `some (m, e)` is the double of value `m * 2 ^ e`. -/
def roundDouble (num den : Nat) : Option (Nat × Int) :=
  if num = 0 then some (0, 0) else
  let e := flog2 num den
  let shift : Int := if e < -1022 then 1074 else 52 - e
  let m := if 0 ≤ shift then rnHalfEven (num * 2 ^ shift.toNat) den
           else rnHalfEven num (den * 2 ^ (-shift).toNat)
  let isInf : Bool := if 0 ≤ 1024 + shift then 2 ^ (1024 + shift).toNat ≤ m else true
  if isInf then none else some (m, -shift)

/-- Conversion `float(g)` for a tier-2 capture group with integer digits `ip` and
fractional digits `fp` (empty when the group had no fractional part). -/
def pyFloatDec (ip fp : List Char) : Option (Nat × Int) :=
  roundDouble (natOfDigits ip * 10 ^ fp.length + natOfDigits fp) (10 ^ fp.length)

/-- Multiplication by the double `1000.0`, with IEEE re-rounding; `inf` stays `inf`. -/
def pyMul1000 : Option (Nat × Int) → Option (Nat × Int)
  | none => none
  | some (m, ex) =>
    if 0 ≤ ex then roundDouble (m * 1000 * 2 ^ ex.toNat) 1
    else roundDouble (m * 1000) (2 ^ (-ex).toNat)

/-- Conversion `int(x)` on a nonnegative double: truncation toward zero; `int(inf)`
raises `OverflowError`. -/
def pyTrunc : Option (Nat × Int) → Except PyErr Nat
  | none => .error .overflow
  | some (m, ex) => .ok (if 0 ≤ ex then m * 2 ^ ex.toNat else m / 2 ^ (-ex).toNat)

/-- Exact mathematical value of `N * 1000` truncated toward zero, for a
decimal `N` with integer digits `ip` and fractional digits `fp` — the
conversion the specification describes for the shorthand tier. -/
def exactKiloTrunc (ip fp : List Char) : Nat :=
  (natOfDigits ip * 10 ^ fp.length + natOfDigits fp) * 1000 / 10 ^ fp.length

/-! ### The three-tier mileage fallback and `parse_fields` -/

/-- Tier 1: leftmost labelled-mileage match, then `int` conversion; `none`
either when the pattern does not occur or when its capture group has no digit
(`ValueError`). -/
def tier1Val (cs : List Char) : Option Nat :=
  (searchTier1 cs).bind intOfDigitGroup

/-- Tier 2: leftmost shorthand match, then `int(float(g) * 1000)`; `.ok none`
when the pattern does not occur, `.error .overflow` when the double
computation overflows to infinity. -/
def tier2Val (cs : List Char) : Except PyErr (Option Nat) :=
  match searchTier2 cs with
  | none => .ok none
  | some (ip, fp) =>
    match pyTrunc (pyMul1000 (pyFloatDec ip fp)) with
    | .ok n => .ok (some n)
    | .error e => .error e

/-- Tier 3: leftmost bare-unit match, then `int(re.sub(r"[^\d]", "", g))`;
the group always contains a digit, so the conversion cannot fail. -/
def tier3Val (cs : List Char) : Option Nat :=
  (searchTier3 cs).map (fun g => natOfDigits (g.filter isDig))

/-- The mileage section of `parse_fields`: tier 1, then tier 2 only if the
mileage is still `None`, then tier 3 only if it is still `None`. -/
def mileageOf (cs : List Char) : Except PyErr (Option Nat) :=
  match tier1Val cs with
  | some n => .ok (some n)
  | none =>
    match tier2Val cs with
    | .error e => .error e
    | .ok (some n) => .ok (some n)
    | .ok none => .ok (tier3Val cs)

/-- The partial record returned by `parse_fields`: each field is present
exactly when its pattern detected a value. -/
structure Fields where
  price_usd : Option Nat
  year : Option Nat
  make : Option String
  model : Option String
  mileage_mi : Option Nat
  deriving DecidableEq, Repr

/-- Function `parse_fields` over a character list: price, year, make/model, then the
three-tier mileage. The `Except` layer records the one way the function can
raise (an uncaught `OverflowError` from the tier-2 float conversion). -/
def parseFieldsL (cs : List Char) : Except PyErr Fields :=
  match mileageOf cs with
  | .error e => .error e
  | .ok mi =>
    .ok { price_usd := priceOf cs
          year := yearOf cs
          make := (makeModelOf cs).map (fun p => String.mk p.1)
          model := (makeModelOf cs).map (fun p => String.mk p.2)
          mileage_mi := mi }

/-- Function `parse_fields` on a Python string. -/
def parseFields (text : String) : Except PyErr Fields := parseFieldsL text.toList

/-! ### The cross-run merge of `materialize-master/main.py`

A structured JSONL record as the merge sees it: `post_id` and `run_id` may be
absent from the parsed JSON (`rec.get` returns `None`), and the payload is
represented by the price field — `materialize_http` only ever inspects
`post_id` and `run_id`, so one payload field suffices to distinguish records. -/

structure JRecord where
  post_id : Option String
  run_id : Option String
  price : Option Int
  deriving DecidableEq, Repr

/-- Value `rec.get("run_id", "")`, used in the recency comparison. -/
def runIdStr (r : JRecord) : String := r.run_id.getD ""

/-- Python's `<` on strings: lexicographic comparison of code points. -/
def listLt : List Char → List Char → Bool
  | [], [] => false
  | [], _ :: _ => true
  | _ :: _, [] => false
  | a :: as, b :: bs => if a < b then true else if b < a then false else listLt as bs

/-- Python's `s1 < s2` for `str` values. -/
def pyStrLt (a b : String) : Bool := listLt a.data b.data

/-- The mutable dict `latest_by_post`, as a map from `post_id` to record. -/
def MergeMap : Type := String → Option JRecord

/-- The empty dict. -/
def memptyMap : MergeMap := fun _ => none

/-- Dict assignment `latest_by_post[pid] = rec`. -/
def mupd (m : MergeMap) (k : String) (v : JRecord) : MergeMap :=
  fun k' => if k' = k then some v else m k'

/-- One iteration of the merge loop body (`materialize_http`, lines 109–116):
skip records with a falsy `post_id`; insert unseen ids; replace a seen entry
exactly when the new record's `run_id` string is strictly greater. -/
def mergeStep (m : MergeMap) (rec : JRecord) : MergeMap :=
  match rec.post_id with
  | none => m
  | some pid =>
    if pid = "" then m
    else
      match m pid with
      | none => mupd m pid rec
      | some prev => if pyStrLt (runIdStr prev) (runIdStr rec) then mupd m pid rec else m

/-- The merge loop folded over a record sequence, from an initial dict. -/
def mergeFoldAux (m : MergeMap) : List JRecord → MergeMap
  | [] => m
  | r :: rs => mergeFoldAux (mergeStep m r) rs

/-- Dict `latest_by_post` after folding every record of every visited run. -/
def mergeFold (l : List JRecord) : MergeMap := mergeFoldAux memptyMap l

/-- Update `rec.setdefault("run_id", run_id)` applied when a run folder's record is
read (`_jsonl_records_for_run`, line 62). -/
def withRunDefault (rid : String) (r : JRecord) : JRecord :=
  { r with run_id := some (r.run_id.getD rid) }

/-- Function `_jsonl_records_for_run`: each blob parses to `some` record or fails
(`none`, covering blank payloads and JSON decode errors, which are skipped);
successful records get the folder's run id as default. -/
def jsonlRecordsForRun (rid : String) (raws : List (Option JRecord)) : List JRecord :=
  raws.filterMap (fun o => o.map (withRunDefault rid))

/-! ### Atomic publish (`materialize_http`, lines 118–130)

Cloud storage is modelled as a map from object key to content; the publish
sequence writes the CSV to the temp key, copies temp → final, and deletes the
temp object. The Boolean injects the simulated crash between the temp write
and the promotion copy; in the source an exception raised there propagates
out of `materialize_http`, so the result is an error, not a response. -/

/-- A bucket: object key → content. -/
def GStore : Type := String → Option String

/-- Write of `blob.upload` or a `copy_blob` destination. -/
def gput (s : GStore) (k v : String) : GStore :=
  fun k' => if k' = k then some v else s k'

/-- Deletion `blob.delete()`. -/
def gdel (s : GStore) (k : String) : GStore :=
  fun k' => if k' = k then none else s k'

/-- Key of the temporary object under the default structured path. -/
def tmpKey : String := "structured/datasets/listings_master.csv.tmp"

/-- Key of the published canonical object under the default structured path. -/
def finalKey : String := "structured/datasets/listings_master.csv"

/-- The publish tail of `materialize_http`: stream the CSV to `tmpKey`, then
copy `tmpKey` → `finalKey`, then delete `tmpKey`. With `failBeforePromote`
the run dies after the temp write and before the copy. Returns the outcome
and the resulting bucket state. -/
def materializePublish (failBeforePromote : Bool) (s : GStore) (csv : String) :
    Except String Unit × GStore :=
  let s1 := gput s tmpKey csv
  if failBeforePromote then (.error "crashed before promotion", s1)
  else
    match s1 tmpKey with
    | none => (.error "tmp object missing", s1)
    | some content =>
      let s2 := gput s1 finalKey content
      let s3 := gdel s2 tmpKey
      (.ok (), s3)

/-! ### The forecast pipeline of `train-dt/main.py` (`run_once`)

Rows carry the post-`to_numeric` typed values; `pd.to_datetime(..., utc=True)
.dt.date` is abstracted as a `parseDate` parameter returning `none` for `NaT`,
with dates as integers; the fitted sklearn regressor is abstracted as a
`fit` parameter mapping a training set and a row to a predicted price. -/

structure TrainRow where
  post_id : String
  scraped_at : String
  price : Option ℚ
  year : Option ℚ
  mileage : Option ℚ
  make : Option String
  model : Option String
  deriving DecidableEq, Repr

/-- The parseable dates of the dataset (`df["date"].dropna()`). -/
def parsedDates (parseDate : String → Option Int) (rows : List TrainRow) : List Int :=
  rows.filterMap (fun r => parseDate r.scraped_at)

/-- Insert into a strictly increasing list, keeping it strictly increasing. -/
def insertND (x : Int) : List Int → List Int
  | [] => [x]
  | y :: ys => if x < y then x :: y :: ys else if x = y then y :: ys else y :: insertND x ys

/-- Model of `sorted(set(...))`: the strictly increasing enumeration of a list's elements. -/
def sortedDedup (l : List Int) : List Int := l.foldr insertND []

/-- Model of `dates = sorted(d for d in df["date"].dropna().unique())`. -/
def distinctDates (parseDate : String → Option Int) (rows : List TrainRow) : List Int :=
  sortedDedup (parsedDates parseDate rows)

/-- Model of `today = dates[-1]` (guarded by the length check before use). -/
def todayOf (parseDate : String → Option Int) (rows : List TrainRow) : Int :=
  (distinctDates parseDate rows).getLastD 0

/-- Model of `train_df = df[df["date"] < today]`; a `NaT` date compares false. -/
def trainRowsOf (parseDate : String → Option Int) (rows : List TrainRow) : List TrainRow :=
  rows.filter fun r =>
    match parseDate r.scraped_at with
    | some d => decide (d < todayOf parseDate rows)
    | none => false

/-- Model of `holdout_df = df[df["date"] == today]`; a `NaT` date compares false. -/
def holdoutRowsOf (parseDate : String → Option Int) (rows : List TrainRow) : List TrainRow :=
  rows.filter fun r => decide (parseDate r.scraped_at = some (todayOf parseDate rows))

/-- The structured result dict of `run_once` (its `status` plus the payload
fields the claims are about). -/
inductive RunResult where
  | noop (reason : String)
  | ok (today : Int) (trainRows holdoutRows : Nat) (mae : Option ℚ) (outputKey : String)
      (dryRun : Bool)
  deriving DecidableEq, Repr

/-- Accessor `result.get("status")`. -/
def statusString : RunResult → String
  | .noop _ => "noop"
  | .ok .. => "ok"

/-- Function `run_once`: date split, no-op guards, fit, score, and the conditional
prediction write. The second component lists the storage writes performed
(key, scored holdout rows). -/
def runOnce (parseDate : String → Option Int)
    (fit : List TrainRow → TrainRow → ℚ) (dryRun : Bool) (rows : List TrainRow) :
    RunResult × List (String × List (String × ℚ)) :=
  let dates := distinctDates parseDate rows
  if dates.length < 2 then (.noop "need at least two distinct dates", [])
  else
    let today := todayOf parseDate rows
    let holdout := holdoutRowsOf parseDate rows
    let train := (trainRowsOf parseDate rows).filter (fun r => r.price.isSome)
    if train.length < 40 then (.noop "too few training rows", [])
    else
      let preds := holdout.map (fun r => (r.post_id, fit train r))
      let scored := holdout.filterMap (fun r => r.price.map (fun p => |p - fit train r|))
      let mae : Option ℚ :=
        if scored.isEmpty then none else some (scored.foldr (· + ·) 0 / scored.length)
      let outKey := "structured/predictions/preds_" ++ toString today ++ ".csv"
      let writes := if ¬ dryRun ∧ 0 < preds.length then [(outKey, preds)] else []
      (.ok today train.length holdout.length mae outKey dryRun, writes)

/-- The HTTP status code `train_dt_http` attaches to a non-exception result:
`200 if result.get("status") == "ok" else 204`; an exception yields 500. -/
def httpCodeOf : Except String RunResult → Nat
  | .error _ => 500
  | .ok r => if statusString r = "ok" then 200 else 204

/-! ### Concrete fixtures used to instantiate the theorems below -/

/-- A 310-digit shorthand mileage: `float` of its group is `inf`. -/
def overflowChars : List Char := '1' :: (List.replicate 309 '0' ++ "k mi".toList)

/-- A record of run `20250101T000000Z` for entity `100`, price 1. -/
def tieRec1 : JRecord :=
  { post_id := some "100", run_id := some "20250101T000000Z", price := some 1 }

/-- A second record of the same run for the same entity, price 2. -/
def tieRec2 : JRecord :=
  { post_id := some "100", run_id := some "20250101T000000Z", price := some 2 }

/-- A one-record earlier run for entity `7`, price 100. -/
def runArecs : List JRecord :=
  [{ post_id := some "7", run_id := some "20250101T000000Z", price := some 100 }]

/-- A one-record later run for the same entity, price 90. -/
def runBrecs : List JRecord :=
  [{ post_id := some "7", run_id := some "20250102T000000Z", price := some 90 }]

/-- A record whose JSON payload lacks `run_id`. -/
def recNoRun : JRecord := { post_id := some "5", run_id := none, price := some 3 }

/-- A tiny concrete date parser: two known date strings. -/
def pd0 : String → Option Int :=
  fun s => if s = "d1" then some 1 else if s = "d2" then some 2 else none

/-- A blank row template. -/
def row0 (pid dat : String) : TrainRow :=
  { post_id := pid, scraped_at := dat, price := some 5
    year := none, mileage := none, make := none, model := none }

/-- Two rows over two distinct dates. -/
def rows0 : List TrainRow := [row0 "a" "d1", row0 "b" "d2"]

/-- Two rows over a single distinct date. -/
def rows1 : List TrainRow := [row0 "a" "d1", row0 "b" "d1"]

/-! ### Theorems -/

/-- Python string comparison is irreflexive. -/
theorem listLt_irrefl : ∀ l, listLt l l = false
  | [] => rfl
  | a :: as => by simp [listLt, listLt_irrefl as]

/-- Python string comparison is asymmetric. -/
theorem listLt_asymm : ∀ l1 l2, listLt l1 l2 = true → listLt l2 l1 = false
  | [], [] => by simp [listLt]
  | [], _ :: _ => by simp [listLt]
  | _ :: _, [] => by simp [listLt]
  | a :: as, b :: bs => by
    simp only [listLt]
    by_cases hab : a < b
    · intro _
      rw [if_neg (asymm hab), if_pos hab]
    · by_cases hba : b < a
      · simp [hab, hba]
      · intro h
        rw [if_neg hba, if_neg hab]
        rw [if_neg hab, if_neg hba] at h
        exact listLt_asymm as bs h

/-- Comparison `pyStrLt` is irreflexive. -/
theorem pyStrLt_irrefl (s : String) : pyStrLt s s = false := listLt_irrefl s.data

/-- Comparison `pyStrLt` is asymmetric. -/
theorem pyStrLt_asymm {a b : String} (h : pyStrLt a b = true) : pyStrLt b a = false :=
  listLt_asymm a.data b.data h

/-- C2: a failure after writing the temporary artifact but before the
promotion copy leaves the previously published canonical object byte-for-byte
unchanged, and the operation ends in an error rather than a success response;
since the temporary object lives under a different key, no reader of the
canonical key can observe a mix of generations. -/
theorem atomic_publish_failure_preserves_table (s : GStore) (csv : String) :
    (materializePublish true s csv).2 finalKey = s finalKey ∧
    (∃ msg, (materializePublish true s csv).1 = .error msg) ∧
    tmpKey ≠ finalKey := by
  have hk : finalKey ≠ tmpKey := by decide
  refine ⟨?_, ⟨"crashed before promotion", rfl⟩, by decide⟩
  show gput s tmpKey csv finalKey = s finalKey
  simp [gput, hk]

/-- C10: the partial record returned by `parse_fields` contains `make` exactly
when it contains `model`: both come from the two capture groups of a single
`MAKE_MODEL_RE` match. -/
theorem make_model_together (t : String) (r : Fields) (h : parseFields t = .ok r) :
    r.make.isSome ↔ r.model.isSome := by
  unfold parseFields parseFieldsL at h
  cases hm : mileageOf t.toList with
  | error e => rw [hm] at h; cases h
  | ok mi =>
    rw [hm] at h
    cases h
    cases makeModelOf t.toList <;> simp

/-- C10 witness at a concrete text. -/
theorem make_model_together_witness :
    ∃ r, parseFields "2015 Honda Civic" = .ok r ∧ (r.make.isSome ↔ r.model.isSome) :=
  ⟨_, rfl, make_model_together "2015 Honda Civic" _ rfl⟩

/-- C3: the three mileage tiers are consulted in fixed priority order — a tier-1
integer settles the result, tier 2 is consulted only when tier 1 yields none,
tier 3 only when tiers 1 and 2 both yield none; and on a text carrying both a
labelled `mileage: 50,000` and an unlabelled `80k miles`, tier 1 wins with
50000 even though tier 2 alone would have produced 80000. -/
theorem mileage_tier_priority :
    (∀ cs n, tier1Val cs = some n → mileageOf cs = .ok (some n)) ∧
    (∀ cs n, tier1Val cs = none → tier2Val cs = .ok (some n) → mileageOf cs = .ok (some n)) ∧
    (∀ cs, tier1Val cs = none → tier2Val cs = .ok none → mileageOf cs = .ok (tier3Val cs)) ∧
    tier1Val ("80k miles; mileage: 50,000").toList = some 50000 ∧
    tier2Val ("80k miles; mileage: 50,000").toList = .ok (some 80000) ∧
    mileageOf ("80k miles; mileage: 50,000").toList = .ok (some 50000) := by
  refine ⟨?_, ?_, ?_, rfl, rfl, rfl⟩
  · intro cs n h; simp [mileageOf, h]
  · intro cs n h1 h2; simp [mileageOf, h1, h2]
  · intro cs h1 h2; simp [mileageOf, h1, h2]

/-- C3 witness: the tier-1 clause applied at a concrete labelled text. -/
theorem mileage_tier_priority_witness :
    mileageOf ("mileage: 123").toList = .ok (some 123) :=
  mileage_tier_priority.1 ("mileage: 123").toList 123 rfl

/-- C4 (failing evaluation): on a 310-digit shorthand mileage the tier-2
conversion `int(float(g) * 1000)` overflows — `float` returns `inf` and
`int(inf)` raises `OverflowError`, which `except ValueError` does not catch —
so `parse_fields` raises instead of returning a record. -/
theorem parse_fields_overflow_raises :
    parseFieldsL overflowChars = .error .overflow := by rfl

/-- C7 (counterexample): two records of the *same* run id for the same entity;
the merge keeps the one processed first, so the later-processed record does
not win. -/
theorem merge_tie_counterexample :
    mergeFold [tieRec1, tieRec2] "100" = some tieRec1 ∧
    mergeFold [tieRec1, tieRec2] "100" ≠ some tieRec2 ∧ tieRec1 ≠ tieRec2 := by
  refine ⟨rfl, by decide, by decide⟩

/-- C7 (amended): on an identical run id the comparison `new > prev` is false,
so the earlier-processed entry is retained deterministically — first-processed
wins ties, the later record never replaces it. -/
theorem merge_tie_first_processed_wins (m : MergeMap) (rec prev : JRecord) (pid : String)
    (hpost : rec.post_id = some pid) (hne : pid ≠ "") (hm : m pid = some prev)
    (heq : runIdStr rec = runIdStr prev) :
    mergeStep m rec pid = some prev := by
  simp [mergeStep, hpost, hne, hm, heq, pyStrLt_irrefl]

/-- C7 amended-claim witness at concrete records. -/
theorem merge_tie_first_processed_wins_witness :
    mergeStep (mergeFold [tieRec1]) tieRec2 "100" = some tieRec1 :=
  merge_tie_first_processed_wins (mergeFold [tieRec1]) tieRec2 tieRec1 "100"
    rfl (by decide) rfl rfl

/-- Updating one key leaves other keys unchanged. -/
theorem mupd_other (m : MergeMap) (k : String) (v : JRecord) (k' : String) (h : k' ≠ k) :
    mupd m k v k' = m k' := by simp [mupd, h]

/-- A merge step never touches entries of other entity ids. -/
theorem mergeStep_other (m : MergeMap) (rec : JRecord) (k : String)
    (h : rec.post_id ≠ some k) : mergeStep m rec k = m k := by
  cases hp : rec.post_id with
  | none => simp [mergeStep, hp]
  | some pid =>
    have hk : k ≠ pid := fun he => h (he ▸ hp)
    by_cases hpe : pid = ""
    · simp [mergeStep, hp, hpe]
    · simp only [mergeStep, hp, if_neg hpe]
      cases m pid with
      | none => exact mupd_other m pid rec k hk
      | some prev =>
        by_cases hlt : pyStrLt (runIdStr prev) (runIdStr rec) = true
        · simp [hlt, mupd_other m pid rec k hk]
        · simp [hlt]

/-- Once an entity id maps to a record whose run id no later record of that id
exceeds, the rest of the fold keeps that record. -/
theorem mergeFoldAux_keeps_max (E : String) (rB : JRecord) :
    ∀ (l : List JRecord) (m : MergeMap),
      (∀ r ∈ l, r.post_id = some E → ¬ pyStrLt (runIdStr rB) (runIdStr r) = true) →
      m E = some rB →
      mergeFoldAux m l E = some rB := by
  intro l
  induction l with
  | nil => intro m _ hm; exact hm
  | cons r rs ih =>
    intro m hbound hm
    show mergeFoldAux (mergeStep m r) rs E = some rB
    apply ih
    · intro r' hr' hp'; exact hbound r' (List.mem_cons_of_mem r hr') hp'
    · by_cases hpk : r.post_id = some E
      · have hnb : ¬ pyStrLt (runIdStr rB) (runIdStr r) = true :=
          hbound r (List.mem_cons_self r rs) hpk
        by_cases hE : E = ""
        · subst hE; simp [mergeStep, hpk, hm]
        · simp [mergeStep, hpk, hE, hm, hnb]
      · rw [mergeStep_other m r E hpk, hm]

/-- If the unique strict-maximum record `rB` for entity `E` still lies ahead in
the fold, and the current entry for `E` (if any) is strictly below it, the fold
ends with `rB`. -/
theorem mergeFoldAux_reaches_max (E : String) (rB : JRecord) (hE : E ≠ "")
    (hpostB : rB.post_id = some E) :
    ∀ (l : List JRecord) (m : MergeMap),
      (∀ r ∈ l, r.post_id = some E → r ≠ rB → pyStrLt (runIdStr r) (runIdStr rB) = true) →
      rB ∈ l →
      (m E = none ∨ ∃ p, m E = some p ∧ pyStrLt (runIdStr p) (runIdStr rB) = true) →
      mergeFoldAux m l E = some rB := by
  intro l
  induction l with
  | nil => intro m _ hmem; exact absurd hmem (List.not_mem_nil rB)
  | cons r rs ih =>
    intro m hbound hmem hcur
    show mergeFoldAux (mergeStep m r) rs E = some rB
    by_cases hrB : r = rB
    · subst hrB
      have hstep : mergeStep m r E = some r := by
        rcases hcur with hnone | ⟨p, hp, hplt⟩
        · simp [mergeStep, hpostB, hE, hnone, mupd]
        · simp [mergeStep, hpostB, hE, hp, hplt, mupd]
      apply mergeFoldAux_keeps_max E r rs (mergeStep m r) _ hstep
      intro r' hr' hp'
      by_cases hr'B : r' = r
      · subst hr'B; simp [pyStrLt_irrefl]
      · have := hbound r' (List.mem_cons_of_mem r hr') hp' hr'B
        intro hcontra
        rw [pyStrLt_asymm this] at hcontra
        cases hcontra
    · have hmem' : rB ∈ rs := by
        rcases List.mem_cons.mp hmem with h | h
        · exact absurd h.symm hrB
        · exact h
      apply ih (mergeStep m r) _ hmem'
      · -- the invariant survives the step
        by_cases hpk : r.post_id = some E
        · have hrlt : pyStrLt (runIdStr r) (runIdStr rB) = true :=
            hbound r (List.mem_cons_self r rs) hpk hrB
          rcases hcur with hnone | ⟨p, hp, hplt⟩
          · right
            refine ⟨r, ?_, hrlt⟩
            simp [mergeStep, hpk, hE, hnone, mupd]
          · by_cases hlt : pyStrLt (runIdStr p) (runIdStr r) = true
            · right
              refine ⟨r, ?_, hrlt⟩
              simp [mergeStep, hpk, hE, hp, hlt, mupd]
            · right
              refine ⟨p, ?_, hplt⟩
              simp [mergeStep, hpk, hE, hp, hlt]
        · rw [mergeStep_other m r E hpk]; exact hcur
      · intro r' hr' hp' hne'; exact hbound r' (List.mem_cons_of_mem r hr') hp' hne'

/-- C1: if runs `A < B` (Python string comparison of the fixed-width run ids)
both contain a record for entity `E`, with `rB` the unique record for `E` in
run `B`, then folding the two runs' records in *any* order (any permutation
that visits every record) leaves the canonical table mapping `E` to `rB`. -/
theorem merge_latest_run_wins
    (recsA recsB : List JRecord) (A B E : String) (rB : JRecord)
    (hA : ∀ r ∈ recsA, r.run_id = some A)
    (hB : ∀ r ∈ recsB, r.run_id = some B)
    (hAB : pyStrLt A B = true)
    (hE : E ≠ "")
    (hrB : rB ∈ recsB) (hpostB : rB.post_id = some E)
    (huniq : ∀ r ∈ recsB, r.post_id = some E → r = rB)
    (l : List JRecord) (hperm : l.Perm (recsA ++ recsB)) :
    mergeFold l E = some rB := by
  apply mergeFoldAux_reaches_max E rB hE hpostB
  · intro r hr hpost hrne
    have hr' : r ∈ recsA ++ recsB := hperm.mem_iff.mp hr
    rcases List.mem_append.mp hr' with ha | hb
    · have h1 := hA r ha
      have h2 := hB rB hrB
      simpa [runIdStr, h1, h2] using hAB
    · exact absurd (huniq r hb hpost) hrne
  · exact hperm.mem_iff.mpr (List.mem_append.mpr (Or.inr hrB))
  · left; rfl

/-- C1 witness: the later run's record wins even when its records are folded
first. -/
theorem merge_latest_run_wins_witness :
    mergeFold (runBrecs ++ runArecs) "7" =
      some { post_id := some "7", run_id := some "20250102T000000Z", price := some 90 } :=
  merge_latest_run_wins runArecs runBrecs "20250101T000000Z" "20250102T000000Z" "7" _
    (by decide) (by decide) (by decide) (by decide) (by decide) rfl (by decide)
    (runBrecs ++ runArecs) List.perm_append_comm

/-- The fold only ever stores a record under its own nonempty `post_id`. -/
theorem mergeFoldAux_post_inv :
    ∀ (l : List JRecord) (m : MergeMap),
      (∀ k r, m k = some r → r.post_id = some k ∧ k ≠ "") →
      ∀ k r, mergeFoldAux m l k = some r → r.post_id = some k ∧ k ≠ "" := by
  intro l
  induction l with
  | nil => intro m hinv k r h; exact hinv k r h
  | cons rc rs ih =>
    intro m hinv
    apply ih
    intro k r h
    cases hp : rc.post_id with
    | none => rw [mergeStep_other m rc k (by simp [hp])] at h; exact hinv k r h
    | some pid =>
      by_cases hpk : pid = k
      · subst hpk
        by_cases hpe : pid = ""
        · have hms : mergeStep m rc = m := by simp [mergeStep, hp, hpe]
          rw [hms] at h; exact hinv pid r h
        · cases hm : m pid with
          | none =>
            have hms : mergeStep m rc = mupd m pid rc := by simp [mergeStep, hp, hpe, hm]
            rw [hms] at h
            simp [mupd] at h
            rcases h with rfl
            exact ⟨hp, hpe⟩
          | some prev =>
            by_cases hlt : pyStrLt (runIdStr prev) (runIdStr rc) = true
            · have hms : mergeStep m rc = mupd m pid rc := by
                simp [mergeStep, hp, hpe, hm, hlt]
              rw [hms] at h
              simp [mupd] at h
              rcases h with rfl
              exact ⟨hp, hpe⟩
            · have hms : mergeStep m rc = m := by simp [mergeStep, hp, hpe, hm, hlt]
              rw [hms] at h
              exact hinv pid r h
      · rw [mergeStep_other m rc k (by simp [hp, hpk])] at h
        exact hinv k r h

/-- C9: a structured record read from a run folder without a `run_id` field
gets the folder's run id (`setdefault`) before the recency comparison, so it
participates in last-write-wins as a record of that run; and the canonical
table never contains an entry for a missing or empty `post_id` — every stored
record carries the nonempty entity id it is keyed by. -/
theorem jsonl_run_default_and_post_filter :
    (∀ (rid : String) (raws : List (Option JRecord)) (r : JRecord),
      some r ∈ raws → r.run_id = none →
        withRunDefault rid r ∈ jsonlRecordsForRun rid raws ∧
        runIdStr (withRunDefault rid r) = rid ∧
        (withRunDefault rid r).post_id = r.post_id) ∧
    (∀ (l : List JRecord) (k : String) (r : JRecord),
      mergeFold l k = some r → r.post_id = some k ∧ k ≠ "") := by
  constructor
  · intro rid raws r hmem hnone
    refine ⟨?_, ?_, rfl⟩
    · exact List.mem_filterMap.mpr ⟨some r, hmem, rfl⟩
    · simp [runIdStr, withRunDefault, hnone]
  · intro l k r h
    exact mergeFoldAux_post_inv l memptyMap (fun k r hk => by cases hk) k r h

/-- C9 witness: a concrete record without `run_id`, read from a concrete run
folder. -/
theorem jsonl_run_default_and_post_filter_witness :
    withRunDefault "20250101T000000Z" recNoRun ∈
      jsonlRecordsForRun "20250101T000000Z" [some recNoRun] ∧
    runIdStr (withRunDefault "20250101T000000Z" recNoRun) = "20250101T000000Z" ∧
    (withRunDefault "20250101T000000Z" recNoRun).post_id = recNoRun.post_id :=
  jsonl_run_default_and_post_filter.1 "20250101T000000Z" [some recNoRun] recNoRun
    (by decide) rfl

/-- Membership in `insertND`. -/
theorem mem_insertND {a x : Int} : ∀ {l : List Int}, a ∈ insertND x l ↔ a = x ∨ a ∈ l := by
  intro l
  induction l with
  | nil => simp [insertND]
  | cons y ys ih =>
    simp only [insertND]
    split
    next h1 =>
      simp [List.mem_cons]
    next h1 =>
      split
      next h2 =>
        subst h2
        simp only [List.mem_cons]
        tauto
      next h2 =>
        simp only [List.mem_cons, ih]
        tauto

/-- Insertion `insertND` preserves strict sortedness. -/
theorem pairwise_insertND {x : Int} :
    ∀ {l : List Int}, l.Pairwise (· < ·) → (insertND x l).Pairwise (· < ·) := by
  intro l
  induction l with
  | nil => intro _; simp [insertND]
  | cons y ys ih =>
    intro hp
    rw [List.pairwise_cons] at hp
    obtain ⟨hy, hys⟩ := hp
    simp only [insertND]
    split
    next h1 =>
      rw [List.pairwise_cons]
      refine ⟨?_, List.pairwise_cons.mpr ⟨hy, hys⟩⟩
      intro z hz
      rcases List.mem_cons.mp hz with rfl | hz'
      · exact h1
      · exact lt_trans h1 (hy z hz')
    next h1 =>
      split
      next h2 =>
        subst h2
        exact List.pairwise_cons.mpr ⟨hy, hys⟩
      next h2 =>
        have hyx : y < x := by omega
        rw [List.pairwise_cons]
        refine ⟨?_, ih hys⟩
        intro z hz
        rcases mem_insertND.mp hz with rfl | hz'
        · exact hyx
        · exact hy z hz'

/-- List `sortedDedup l` is strictly sorted. -/
theorem pairwise_sortedDedup (l : List Int) : (sortedDedup l).Pairwise (· < ·) := by
  induction l with
  | nil => simp [sortedDedup]
  | cons x xs ih => exact pairwise_insertND ih

/-- List `sortedDedup l` has the same members as `l`. -/
theorem mem_sortedDedup {a : Int} : ∀ {l : List Int}, a ∈ sortedDedup l ↔ a ∈ l := by
  intro l
  induction l with
  | nil => simp [sortedDedup]
  | cons x xs ih =>
    show a ∈ insertND x (sortedDedup xs) ↔ _
    rw [mem_insertND, ih, List.mem_cons]

/-- The defaulted last element of a nonempty list is a member. -/
theorem getLastD_mem : ∀ (l : List Int), l ≠ [] → l.getLastD 0 ∈ l := by
  intro l
  induction l with
  | nil => intro h; exact absurd rfl h
  | cons x xs ih =>
    intro _
    cases xs with
    | nil => simp
    | cons y ys =>
      have h1 : (x :: y :: ys).getLastD 0 = (y :: ys).getLastD 0 := by
        simp [List.getLastD_cons]
      rw [h1]
      exact List.mem_cons_of_mem x (ih (by simp))

/-- In a strictly sorted list every member is at most the defaulted last element. -/
theorem le_getLastD_sorted :
    ∀ (l : List Int), l.Pairwise (· < ·) → ∀ a ∈ l, a ≤ l.getLastD 0 := by
  intro l
  induction l with
  | nil => intro _ a ha; cases ha
  | cons x xs ih =>
    intro hp a ha
    rw [List.pairwise_cons] at hp
    obtain ⟨hx, hxs⟩ := hp
    cases xs with
    | nil =>
      rcases List.mem_cons.mp ha with rfl | h
      · simp
      · cases h
    | cons y ys =>
      have h1 : (x :: y :: ys).getLastD 0 = (y :: ys).getLastD 0 := by
        simp [List.getLastD_cons]
      rw [h1]
      rcases List.mem_cons.mp ha with rfl | h
      · have hmem := getLastD_mem (y :: ys) (by simp)
        exact le_of_lt (hx _ hmem)
      · exact ih hxs a h

/-- C5: with at least two distinct parseable dates, the holdout is exactly the
rows dated at the maximum present date, the training set is exactly the rows
with a strictly earlier parseable date, the split point is the maximum
parseable date, and so every training date is strictly below every holdout
date. -/
theorem train_holdout_split_partition (parseDate : String → Option Int) (rows : List TrainRow)
    (h2 : 2 ≤ (distinctDates parseDate rows).length) :
    (∀ r, r ∈ holdoutRowsOf parseDate rows ↔
        r ∈ rows ∧ parseDate r.scraped_at = some (todayOf parseDate rows)) ∧
    (∀ r, r ∈ trainRowsOf parseDate rows ↔
        r ∈ rows ∧ ∃ d, parseDate r.scraped_at = some d ∧ d < todayOf parseDate rows) ∧
    todayOf parseDate rows ∈ parsedDates parseDate rows ∧
    (∀ d ∈ parsedDates parseDate rows, d ≤ todayOf parseDate rows) ∧
    (∀ r ∈ trainRowsOf parseDate rows, ∀ r' ∈ holdoutRowsOf parseDate rows,
      ∀ d d', parseDate r.scraped_at = some d → parseDate r'.scraped_at = some d' →
        d < d') := by
  have hho : ∀ r, r ∈ holdoutRowsOf parseDate rows ↔
      r ∈ rows ∧ parseDate r.scraped_at = some (todayOf parseDate rows) := by
    intro r
    simp [holdoutRowsOf, List.mem_filter]
  have htr : ∀ r, r ∈ trainRowsOf parseDate rows ↔
      r ∈ rows ∧ ∃ d, parseDate r.scraped_at = some d ∧ d < todayOf parseDate rows := by
    intro r
    simp only [trainRowsOf, List.mem_filter]
    constructor
    · rintro ⟨hr, hcond⟩
      refine ⟨hr, ?_⟩
      cases hpd : parseDate r.scraped_at with
      | none => rw [hpd] at hcond; cases hcond
      | some d =>
        rw [hpd] at hcond
        exact ⟨d, rfl, of_decide_eq_true hcond⟩
    · rintro ⟨hr, d, hpd, hlt⟩
      exact ⟨hr, by rw [hpd]; exact decide_eq_true hlt⟩
  refine ⟨hho, htr, ?_, ?_, ?_⟩
  · have hne : distinctDates parseDate rows ≠ [] := by
      intro h
      rw [h] at h2
      exact absurd h2 (by decide)
    have := getLastD_mem (distinctDates parseDate rows) hne
    exact mem_sortedDedup.mp this
  · intro d hd
    exact le_getLastD_sorted (distinctDates parseDate rows)
      (pairwise_sortedDedup (parsedDates parseDate rows)) d (mem_sortedDedup.mpr hd)
  · intro r hr r' hr' d d' hd hd'
    obtain ⟨_, dd, hdd, hlt⟩ := (htr r).mp hr
    obtain ⟨_, hd'eq⟩ := (hho r').mp hr'
    rw [hd] at hdd
    rw [hd'] at hd'eq
    cases hdd
    cases hd'eq
    exact hlt

/-- C5 witness at a concrete two-date dataset. -/
theorem train_holdout_split_partition_witness :
    todayOf pd0 rows0 ∈ parsedDates pd0 rows0 :=
  (train_holdout_split_partition pd0 rows0 (by decide)).2.2.1

/-- C6: with fewer than two distinct parseable dates, `run_once` returns the
"need at least two distinct dates" no-op result, performs no storage write,
and the HTTP layer maps it to 204 — distinct from both the success code 200
and the error code 500. -/
theorem forecast_noop_insufficient_dates (parseDate : String → Option Int)
    (fit : List TrainRow → TrainRow → ℚ) (dryRun : Bool) (rows : List TrainRow)
    (h : (distinctDates parseDate rows).length < 2) :
    runOnce parseDate fit dryRun rows = (.noop "need at least two distinct dates", []) ∧
    statusString (runOnce parseDate fit dryRun rows).1 = "noop" ∧
    httpCodeOf (.ok (runOnce parseDate fit dryRun rows).1) = 204 ∧
    (204 ≠ 200 ∧ 204 ≠ 500) := by
  have hrun : runOnce parseDate fit dryRun rows =
      (.noop "need at least two distinct dates", []) := by
    simp [runOnce, h]
  refine ⟨hrun, ?_, ?_, by decide, by decide⟩
  · rw [hrun]; rfl
  · rw [hrun]; rfl

/-- C6 witness at a concrete one-date dataset. -/
theorem forecast_noop_insufficient_dates_witness :
    runOnce pd0 (fun _ _ => 0) false rows1 = (.noop "need at least two distinct dates", []) :=
  (forecast_noop_insufficient_dates pd0 (fun _ _ => 0) false rows1 (by decide)).1

/-- C8 (counterexample): on `"1.001k mi"` the shorthand tier fires with
`N = 1.001`, whose exact `N * 1000` truncates to 1001 — but the code computes
`int(float("1.001") * 1000)` in double precision, where the product rounds to
just below 1001, so the extracted mileage is 1000. -/
theorem shorthand_float_counterexample :
    searchTier2 ("1.001k mi").toList = some (['1'], ['0', '0', '1']) ∧
    mileageOf ("1.001k mi").toList = .ok (some 1000) ∧
    exactKiloTrunc ['1'] ['0', '0', '1'] = 1001 ∧ (1000 : Nat) ≠ 1001 := by
  exact ⟨rfl, rfl, by decide, by decide⟩

/-- C8 (amended): a mileage detected by the shorthand tier with numeric group
`N` equals the IEEE-754 double evaluation of `int(float(N) * 1000)` —
`N * 1000` truncated toward zero up to double rounding; this agrees with the
exact truncation on short decimals such as `"12.5k miles"`, which yields
12500. -/
theorem shorthand_double_semantics :
    (∀ cs ip fp, searchTier2 cs = some (ip, fp) →
      tier2Val cs = (pyTrunc (pyMul1000 (pyFloatDec ip fp))).map some) ∧
    mileageOf ("12.5k miles").toList = .ok (some 12500) ∧
    exactKiloTrunc ['1', '2'] ['5'] = 12500 := by
  refine ⟨?_, rfl, by decide⟩
  intro cs ip fp h
  simp only [tier2Val, h]
  cases hpt : pyTrunc (pyMul1000 (pyFloatDec ip fp)) <;> simp [Except.map]

/-- C8 amended-claim witness at the concrete shorthand text. -/
theorem shorthand_double_semantics_witness :
    tier2Val ("12.5k miles").toList =
      (pyTrunc (pyMul1000 (pyFloatDec ['1', '2'] ['5']))).map some :=
  shorthand_double_semantics.1 ("12.5k miles").toList ['1', '2'] ['5'] rfl

end Scraper
